import Mathlib

/-!
Verification of the pelper utility library (src/pelper/pipe.py and
src/pelper/misc.py) against its specification, over a shallow embedding.

Modelling conventions:
- Python values flowing through a pipeline are modelled by a type parameter.
- A pipeline step is either a plain callable, a tuple whose second element
  is a dict (keyword arguments), or a tuple of positional arguments; the
  runtime isinstance dispatch of pipe.py becomes the three constructors.
- Python iterables consumed by take and nth are modelled as finite lists.
- itertools.islice raising ValueError on negative indices is modelled with
  an Except monad over a PyError type.
- Python None results are modelled as Option.none.
-/

namespace Pelper

/-- A pipeline step of pipe.py: a plain callable, a tuple whose second
element is a dict (invoked with keyword arguments), or a tuple of
positional arguments. -/
inductive Step (α : Type) where
  | plain (f : α → α)
  | tupleKw (f : α → List (String × α) → α) (kw : List (String × α))
  | tuplePos (f : α → List α → α) (args : List α)

/-- One iteration of the loop body of pipe: dispatch on the shape of the
step exactly as pipe.py dispatches on isinstance(f, tuple) and
isinstance(f[1], dict). -/
def applyStep {α : Type} (data : α) : Step α → α
  | Step.plain f => f data
  | Step.tupleKw f kw => f data kw
  | Step.tuplePos f args => f data args

/-- pipe(data, *functions) of pipe.py: the for-loop over functions is a
left fold of applyStep over the list of steps. -/
def pipe {α : Type} (data : α) (functions : List (Step α)) : α :=
  List.foldl applyStep data functions

/-- Python pow with the running value as base and the tuple arguments as
the remaining positional arguments: pow(b, e) is exponentiation and
pow(b, e, m) is exponentiation modulo m (nonnegative exponents only, as
used in the spec examples). -/
def pypow (b : Int) (args : List Int) : Int :=
  match args with
  | [e] => b ^ e.toNat
  | [e, m] => (b ^ e.toNat) % m
  | _ => b

theorem foldl_apply_plain {α : Type} (fs : List (α → α)) (v : α) :
    pipe v (fs.map Step.plain) = List.foldl (fun d f => f d) v fs := by
  induction fs generalizing v with
  | nil => rfl
  | cons f fs ih => simpa [pipe, applyStep, List.foldl] using ih (f v)

theorem foldl_append_singleton {α : Type} (acc : List α) (l : List α) :
    List.foldl (fun xs x => xs ++ [x]) acc l = acc ++ l := by
  induction l generalizing acc with
  | nil => simp
  | cons x xs ih => simp [List.foldl, ih]

/-- C1: pipe over plain callable steps is the left-to-right fold
fn(...f1(v)...); moreover each step runs exactly once and in order,
witnessed by steps that append their index to the running value. -/
theorem pipe_is_left_fold {α : Type} (v : α) (fs : List (α → α)) :
    pipe v (fs.map Step.plain) = List.foldl (fun d f => f d) v fs ∧
    (∀ (is : List Nat),
      pipe ([] : List Nat) (is.map (fun i => Step.plain (fun xs => xs ++ [i]))) = is) := by
  refine ⟨foldl_apply_plain fs v, ?_⟩
  intro is
  have h : (is.map (fun i => Step.plain (fun xs : List Nat => xs ++ [i])))
      = (is.map (fun i => (fun xs : List Nat => xs ++ [i]))).map Step.plain := by
    simp [List.map_map]
  rw [h, foldl_apply_plain, List.foldl_map]
  simpa using foldl_append_singleton [] is

/-- C2: a tuple step whose second element is a dict is invoked with the
running value and the keyword arguments, any other tuple step is invoked
with the running value and the remaining tuple elements as positional
arguments; in particular pipe(3, (pow, 2)) = 9 and
pipe(3, (pow, 2, 8)) = 1. -/
theorem pipe_tuple_steps {α : Type} (v : α)
    (fk : α → List (String × α) → α) (kw : List (String × α))
    (fp : α → List α → α) (args : List α) :
    pipe v [Step.tupleKw fk kw] = fk v kw ∧
    pipe v [Step.tuplePos fp args] = fp v args ∧
    pipe (3 : Int) [Step.tuplePos pypow [2]] = 9 ∧
    pipe (3 : Int) [Step.tuplePos pypow [2, 8]] = 1 := by
  refine ⟨rfl, rfl, by decide, by decide⟩

/-- The ValueError that itertools.islice raises when given a negative
stop or start argument. -/
inductive PyError where
  | valueError : PyError
deriving DecidableEq

/-- The elements yielded by islice(iterable, stop) for a nonnegative
stop: the first stop elements of the iterable, fewer if it is exhausted
first. -/
def isliceStopList {α : Type} : List α → Nat → List α
  | _, 0 => []
  | [], _ + 1 => []
  | x :: xs, n + 1 => x :: isliceStopList xs n

/-- The elements yielded by islice(iterable, start, None) for a
nonnegative start: everything after the first start elements. -/
def isliceFromList {α : Type} : List α → Nat → List α
  | s, 0 => s
  | [], _ + 1 => []
  | _ :: xs, n + 1 => isliceFromList xs n

/-- islice(iterable, stop): ValueError when stop is negative, otherwise
the first stop elements. -/
def islice {α : Type} (s : List α) (stop : Int) : Except PyError (List α) :=
  if stop < 0 then Except.error PyError.valueError
  else Except.ok (isliceStopList s stop.toNat)

/-- islice(iterable, start, None): ValueError when start is negative,
otherwise the elements from position start on. -/
def isliceFrom {α : Type} (s : List α) (start : Int) : Except PyError (List α) :=
  if start < 0 then Except.error PyError.valueError
  else Except.ok (isliceFromList s start.toNat)

/-- take(iterable, n) of pipe.py: list(islice(iterable, n)). -/
def take {α : Type} (s : List α) (n : Int) : Except PyError (List α) :=
  islice s n

/-- next(iterator, default): the first element of what remains of the
iterator, or the default if it is exhausted. Python None is modelled as
Option.none. -/
def nextDefault {α : Type} : List α → Option α → Option α
  | [], d => d
  | x :: _, _ => some x

/-- nth(iterable, n, default=None) of pipe.py:
next(islice(iterable, n, None), default). The default argument of the
Python signature is None, modelled by passing Option.none for d. -/
def nth {α : Type} (s : List α) (n : Int) (d : Option α) : Except PyError (Option α) :=
  Except.map (fun rest => nextDefault rest d) (isliceFrom s n)

theorem isliceStopList_eq_take {α : Type} (s : List α) (n : Nat) :
    isliceStopList s n = List.take n s := by
  induction s generalizing n with
  | nil => cases n <;> rfl
  | cons x xs ih => cases n with
    | zero => rfl
    | succ m => simp [isliceStopList, List.take, ih]

theorem isliceFromList_eq_drop {α : Type} (s : List α) (n : Nat) :
    isliceFromList s n = List.drop n s := by
  induction s generalizing n with
  | nil => cases n <;> rfl
  | cons x xs ih => cases n with
    | zero => rfl
    | succ m => simp [isliceFromList, List.drop, ih]

/-- C8: for every nonnegative n, take returns (without raising) the list
of the first min(n, length s) elements of s in order; n = 0 yields the
empty list, and a sequence shorter than n yields the whole sequence. -/
theorem take_spec {α : Type} (s : List α) (n : Nat) :
    take s (n : Int) = Except.ok (List.take n s) ∧
    (List.take n s).length = min n s.length ∧
    take s ((0 : Nat) : Int) = Except.ok ([] : List α) := by
  refine ⟨?_, List.length_take n s, ?_⟩
  · simp [take, islice, isliceStopList_eq_take]
  · simp [take, islice, isliceStopList]

/-- C9: for every nonnegative n, nth never raises; it returns the element
at zero-based position n when s has at least n + 1 elements, and the
default value d otherwise (the default of the Python signature being the
None marker, modelled as Option.none). -/
theorem nth_spec {α : Type} (s : List α) (n : Nat) (d : Option α) :
    (∀ h : n < s.length, nth s (n : Int) d = Except.ok (some (s.get ⟨n, h⟩))) ∧
    (s.length ≤ n → nth s (n : Int) d = Except.ok d) := by
  constructor
  · intro h
    have hd : List.drop n s = s.get ⟨n, h⟩ :: List.drop (n + 1) s :=
      List.drop_eq_getElem_cons h
    unfold nth isliceFrom
    rw [if_neg (by omega), Int.toNat_natCast, isliceFromList_eq_drop, hd]
    rfl
  · intro h
    have hd : List.drop n s = [] := List.drop_eq_nil_of_le h
    unfold nth isliceFrom
    rw [if_neg (by omega), Int.toNat_natCast, isliceFromList_eq_drop, hd]
    rfl

/-- C9 witness: nth([10, 11, 12], 1) is 11, and nth([10, 11, 12], 5) with
default marker None is None. -/
theorem nth_spec_witness :
    nth [10, 11, 12] ((1 : Nat) : Int) (none : Option Nat) = Except.ok (some 11) ∧
    nth [10, 11, 12] ((5 : Nat) : Int) (none : Option Nat) = Except.ok none :=
  ⟨(nth_spec [10, 11, 12] 1 none).1 (by decide),
   (nth_spec [10, 11, 12] 5 none).2 (by decide)⟩

/-- C10: take and nth both raise ValueError for every negative index,
because islice rejects negative stop and start arguments. -/
theorem take_nth_negative_raise {α : Type} (s : List α) (d : Option α)
    (n : Int) (h : n < 0) :
    take s n = Except.error PyError.valueError ∧
    nth s n d = Except.error PyError.valueError := by
  constructor
  · simp [take, islice, h]
  · simp [nth, isliceFrom, h, Except.map]

/-- C10 witness: take([1, 2, 3], -1) and nth([1, 2, 3], -1) both raise
ValueError. -/
theorem take_nth_negative_raise_witness :
    take [1, 2, 3] (-1) = Except.error PyError.valueError ∧
    nth [1, 2, 3] (-1) (none : Option Nat) = Except.error PyError.valueError :=
  take_nth_negative_raise [1, 2, 3] none (-1) (by decide)

/-- Python dict membership and lookup for the cache dict of misc.py,
modelled as an association list. -/
def dictGet {κ ρ : Type} [DecidableEq κ] : List (κ × ρ) → κ → Option ρ
  | [], _ => none
  | (k, v) :: rest, key => if key = k then some v else dictGet rest key

/-- Python dict assignment saved[args] = result: replace the binding if
the key is present, otherwise add it. -/
def dictSet {κ ρ : Type} [DecidableEq κ] : List (κ × ρ) → κ → ρ → List (κ × ρ)
  | [], k, v => [(k, v)]
  | (k0, v0) :: rest, k, v =>
      if k = k0 then (k, v) :: rest else (k0, v0) :: dictSet rest k v

/-- The outcome of one call of the memoized function of misc.py: the
returned result, the cache dict after the call, and how many times the
underlying function was invoked during the call. -/
structure CacheCall (κ ρ : Type) where
  result : ρ
  saved : List (κ × ρ)
  fcalls : Nat

/-- newfunc of cache in misc.py: if args is in saved return the saved
result without calling f; otherwise call f once, store the result under
args, and return it. The closure variable saved is passed explicitly. -/
def newfunc {κ ρ : Type} [DecidableEq κ] (f : κ → ρ)
    (saved : List (κ × ρ)) (args : κ) : CacheCall κ ρ :=
  match dictGet saved args with
  | some r => ⟨r, saved, 0⟩
  | none => ⟨f args, dictSet saved args (f args), 1⟩

theorem dictGet_dictSet_ne {κ ρ : Type} [DecidableEq κ]
    (s : List (κ × ρ)) (k a : κ) (v : ρ) (h : k ≠ a) :
    dictGet (dictSet s a v) k = dictGet s k := by
  induction s with
  | nil => simp [dictSet, dictGet, h]
  | cons p rest ih =>
    obtain ⟨k0, v0⟩ := p
    by_cases ha : a = k0
    · subst ha
      simp [dictSet, dictGet, h]
    · by_cases hk : k = k0 <;> simp [dictSet, dictGet, ha, hk, ih]

theorem length_dictSet {κ ρ : Type} [DecidableEq κ]
    (s : List (κ × ρ)) (a : κ) (v : ρ) :
    s.length ≤ (dictSet s a v).length := by
  induction s with
  | nil => simp [dictSet]
  | cons p rest ih =>
    obtain ⟨k0, v0⟩ := p
    by_cases ha : a = k0 <;> simp [dictSet, ha] <;> omega

/-- C3: from an empty cache, two calls with the same argument tuple x
invoke the underlying f exactly once in total and return equal results,
and a subsequent call with a different tuple y invokes f again; moreover
every binding already in any cache survives any later call unchanged and
the cache never shrinks. -/
theorem cache_memoizes {κ ρ : Type} [DecidableEq κ] (f : κ → ρ)
    (x y : κ) (hxy : x ≠ y) :
    ((newfunc f [] x).fcalls = 1 ∧
     (newfunc f (newfunc f [] x).saved x).fcalls = 0 ∧
     (newfunc f [] x).result = f x ∧
     (newfunc f (newfunc f [] x).saved x).result = f x ∧
     (newfunc f (newfunc f (newfunc f [] x).saved x).saved y).fcalls = 1) ∧
    (∀ (s : List (κ × ρ)) (a k : κ) (v : ρ),
      dictGet s k = some v → dictGet (newfunc f s a).saved k = some v) ∧
    (∀ (s : List (κ × ρ)) (a : κ),
      s.length ≤ (newfunc f s a).saved.length) := by
  have h1 : newfunc f [] x = ⟨f x, [(x, f x)], 1⟩ := rfl
  have h2 : newfunc f [(x, f x)] x = ⟨f x, [(x, f x)], 0⟩ := by
    simp [newfunc, dictGet]
  have h3 : (newfunc f [(x, f x)] y).fcalls = 1 := by
    have hyx : y ≠ x := Ne.symm hxy
    simp [newfunc, dictGet, hyx]
  refine ⟨?_, ?_, ?_⟩
  · rw [h1]
    exact ⟨rfl, by rw [h2], rfl, by rw [h2], by rw [h2]; exact h3⟩
  · intro s a k v hk
    unfold newfunc
    cases hget : dictGet s a with
    | some r => simpa using hk
    | none =>
      have hka : k ≠ a := fun he => by rw [he, hget] at hk; exact Option.noConfusion hk
      simpa [dictGet_dictSet_ne s k a (f a) hka] using hk
  · intro s a
    unfold newfunc
    cases hget : dictGet s a with
    | some r => simp
    | none => simpa using length_dictSet s a (f a)

/-- C3 witness: with f(n) = n * n, calling with 2 twice then with 3,
the two calls with 2 cost one underlying invocation and agree, the call
with 3 costs one more, a stored binding survives, and the cache grows. -/
theorem cache_memoizes_witness :
    ((newfunc (fun n : Nat => n * n) [] 2).fcalls = 1 ∧
     (newfunc (fun n : Nat => n * n)
        (newfunc (fun n : Nat => n * n) [] 2).saved 2).fcalls = 0 ∧
     (newfunc (fun n : Nat => n * n) [] 2).result = (fun n : Nat => n * n) 2 ∧
     (newfunc (fun n : Nat => n * n)
        (newfunc (fun n : Nat => n * n) [] 2).saved 2).result = (fun n : Nat => n * n) 2 ∧
     (newfunc (fun n : Nat => n * n)
        (newfunc (fun n : Nat => n * n)
          (newfunc (fun n : Nat => n * n) [] 2).saved 2).saved 3).fcalls = 1) ∧
    dictGet (newfunc (fun n : Nat => n * n) [(5, 25)] 2).saved 5 = some 25 ∧
    [((5 : Nat), (25 : Nat))].length ≤ (newfunc (fun n : Nat => n * n) [(5, 25)] 2).saved.length := by
  obtain ⟨ha, hb, hc⟩ := cache_memoizes (fun n : Nat => n * n) 2 3 (by decide)
  exact ⟨ha, hb [(5, 25)] 2 5 25 (by decide), hc [(5, 25)] 2⟩

/-- Possibly nested Python data for flatten of misc.py: an atom is any
non-iterable object, a string is iterable but string-typed, and a list
gathers nested elements. -/
inductive Nested (α : Type) where
  | atom (a : α)
  | str (s : String)
  | list (xs : List (Nested α))

/-- The leaf test of flatten in misc.py: an object is a leaf exactly when
it has no iterator or is a string. -/
def isLeaf {α : Type} : Nested α → Bool
  | Nested.atom _ => true
  | Nested.str _ => true
  | Nested.list _ => false

mutual

/-- flatten(nested_list) of misc.py: a non-iterable or string input is
wrapped in a one-element list, and a list input is flattened element by
element, each recursive result extending the accumulator in order. -/
def flatten {α : Type} : Nested α → List (Nested α)
  | Nested.atom a => [Nested.atom a]
  | Nested.str s => [Nested.str s]
  | Nested.list xs => flattenList xs

/-- The loop of flatten: result.extend(flatten(e)) for each element e in
order. -/
def flattenList {α : Type} : List (Nested α) → List (Nested α)
  | [] => []
  | e :: es => flatten e ++ flattenList es

end

theorem flattenList_eq_join {α : Type} (xs : List (Nested α)) :
    flattenList xs = (xs.map flatten).join := by
  induction xs with
  | nil => rfl
  | cons e es ih => simp [flattenList, ih]

mutual

theorem flatten_all_leaves {α : Type} : ∀ (t : Nested α),
    (flatten t).all isLeaf = true
  | Nested.atom _ => rfl
  | Nested.str _ => rfl
  | Nested.list xs => flattenList_all_leaves xs

theorem flattenList_all_leaves {α : Type} : ∀ (xs : List (Nested α)),
    (flattenList xs).all isLeaf = true
  | [] => rfl
  | e :: es => by
      rw [flattenList, List.all_append]
      exact by rw [flatten_all_leaves e, flattenList_all_leaves es]; rfl

end

/-- C4: flatten wraps a non-iterable input in a one-element list, never
decomposes a string into characters, flattens a list input depth-first
and left-to-right as the concatenation of the flattenings of its
elements, and every element of the output is a leaf. -/
theorem flatten_spec {α : Type} (a : α) (s : String) (xs : List (Nested α)) :
    flatten (Nested.atom a) = [Nested.atom a] ∧
    flatten (Nested.str s : Nested α) = [Nested.str s] ∧
    flatten (Nested.list xs) = (xs.map flatten).join ∧
    (∀ t : Nested α, (flatten t).all isLeaf = true) :=
  ⟨rfl, rfl, flattenList_eq_join xs, flatten_all_leaves⟩

/-- ignored(*exception) of misc.py: run the body; when it raises an
exception instance matching (isinstance-style, via the supplied excMatches
predicate) one of the given exception types, discard it and continue
normally; otherwise let the exception propagate unchanged. The body is
modelled as an already-evaluated Except outcome. -/
def ignored {ε τ : Type} (excMatches : ε → τ → Bool) (types : List τ)
    (body : Except ε Unit) : Except ε Unit :=
  match body with
  | Except.ok _ => Except.ok ()
  | Except.error e =>
      if types.any (fun t => excMatches e t) then Except.ok () else Except.error e

/-- C5: a raised exception matching one of the listed types is discarded
and control continues normally, a raised exception matching none of them
propagates unchanged, and a body that does not raise continues
normally. -/
theorem ignored_spec {ε τ : Type} (excMatches : ε → τ → Bool)
    (types : List τ) (e : ε) :
    (types.any (fun t => excMatches e t) = true →
      ignored excMatches types (Except.error e) = Except.ok ()) ∧
    (types.any (fun t => excMatches e t) = false →
      ignored excMatches types (Except.error e) = Except.error e) ∧
    ignored excMatches types (Except.ok ()) = Except.ok () := by
  refine ⟨?_, ?_, rfl⟩
  · intro h
    simp [ignored, h]
  · intro h
    simp [ignored, h]

/-- C5 witness: with exception types named by numbers and matching by
equality, ignored [2] discards a raised 2 and lets a raised 7
propagate. -/
theorem ignored_spec_witness :
    ignored (fun e t : Nat => e == t) [2] (Except.error 2) = Except.ok () ∧
    ignored (fun e t : Nat => e == t) [2] (Except.error 7) = Except.error 7 :=
  ⟨(ignored_spec (fun e t : Nat => e == t) [2] 2).1 (by decide),
   (ignored_spec (fun e t : Nat => e == t) [2] 7).2.1 (by decide)⟩

/-- The configuration of a print_duration instance of misc.py: the
optional message. The out sink is modelled by collecting the strings
passed to it; wall-clock time is modelled by externally supplied integer
microsecond timestamps. -/
structure PrintDurationCfg where
  msg : Option String

/-- Fixed-point rendering of an elapsed time in microseconds with six
fractional digits, modelling the {:.6f} format applied to the float
seconds value. -/
def formatSix (micros : Nat) : String :=
  let fracStr := toString (micros % 1000000)
  toString (micros / 1000000) ++ "." ++
    String.join (List.replicate (6 - fracStr.length) "0") ++ fracStr

/-- Python truthiness of self.msg in the exit handler: None and the empty
string are falsy. -/
def msgTruthy : Option String → Bool
  | none => false
  | some m => m ≠ ""

/-- The single string passed to the out sink by the exit handler of
print_duration: the configured message followed by the elapsed time when
the message is truthy, and the word Duration otherwise. -/
def exitMsg (cfg : PrintDurationCfg) (elapsedMicros : Nat) : String :=
  if msgTruthy cfg.msg then
    (cfg.msg.getD "") ++ " " ++ formatSix elapsedMicros ++ "s"
  else
    "Duration " ++ formatSix elapsedMicros ++ "s"

/-- wrapped_func of print_duration.__call__ in misc.py: enter (record the
start time), run func, exit (emit the duration message), return the
result. There is no try/finally around the call of func: when func
raises, the exit step is never reached, so nothing is emitted and the
exception propagates. Returns the outcome together with the list of
strings passed to the out sink. -/
def wrappedFunc {ε α β : Type} (cfg : PrintDurationCfg)
    (func : α → Except ε β) (startMicros endMicros : Nat) (x : α) :
    Except ε β × List String :=
  match func x with
  | Except.error e => (Except.error e, [])
  | Except.ok r => (Except.ok r, [exitMsg cfg (endMicros - startMicros)])

/-- C6 counterexample: a decorated function that raises emits no duration
message at all — the wrapper passes zero strings to the sink on the error
path, contradicting the claim that the report step runs on all exit
paths. -/
theorem print_duration_error_counterexample :
    ¬ ((wrappedFunc ⟨none⟩ (fun _ : Unit => (Except.error 0 : Except Nat Nat))
        0 1 ()).2.length = 1) := by
  decide

/-- C6 amended: on the decorator path, when the wrapped function raises,
the exception propagates unchanged and the stop/report step is skipped —
the duration message is emitted only on the normal-return path
(where exactly one message is emitted). -/
theorem print_duration_error_path {ε α β : Type} (cfg : PrintDurationCfg)
    (func : α → Except ε β) (startMicros endMicros : Nat) (x : α) (e : ε)
    (h : func x = Except.error e) :
    wrappedFunc cfg func startMicros endMicros x = (Except.error e, []) := by
  simp [wrappedFunc, h]

/-- C6 amended witness: a function raising exception 0 propagates it and
nothing is emitted. -/
theorem print_duration_error_path_witness :
    wrappedFunc ⟨none⟩ (fun _ : Unit => (Except.error 0 : Except Nat Nat)) 0 1 ()
      = (Except.error 0, []) :=
  print_duration_error_path ⟨none⟩ (fun _ : Unit => (Except.error 0 : Except Nat Nat))
    0 1 () 0 rfl

/-- C7: on a normal return the decorator returns exactly the wrapped
function result unchanged and passes exactly one string to the sink,
formatted as the message followed by the elapsed seconds with six
fractional digits when a nonempty message was configured, and with the
Duration prefix when no message was configured. -/
theorem print_duration_normal_path {ε α β : Type} (msg : Option String)
    (f : α → β) (x : α) (startMicros endMicros : Nat) :
    wrappedFunc (ε := ε) ⟨msg⟩ (fun a => Except.ok (f a)) startMicros endMicros x
      = (Except.ok (f x), [exitMsg ⟨msg⟩ (endMicros - startMicros)]) ∧
    (∀ m : String, m ≠ "" →
      exitMsg ⟨some m⟩ (endMicros - startMicros)
        = m ++ " " ++ formatSix (endMicros - startMicros) ++ "s") ∧
    exitMsg ⟨none⟩ (endMicros - startMicros)
      = "Duration " ++ formatSix (endMicros - startMicros) ++ "s" := by
  refine ⟨rfl, ?_, rfl⟩
  intro m hm
  simp [exitMsg, msgTruthy, hm]

/-- C7 witness: a function wrapped with message f took, entered at time 0
and exited at 2.5 seconds, returns its value 4 unchanged and emits the
single message f took 2.500000s; without a message the prefix is
Duration. -/
theorem print_duration_normal_path_witness :
    wrappedFunc (ε := Unit) ⟨some "f took"⟩ (fun n : Nat => Except.ok (n + 1))
      0 2500000 3 = (Except.ok 4, ["f took 2.500000s"]) ∧
    exitMsg ⟨none⟩ 2500000 = "Duration 2.500000s" := by
  obtain ⟨ha, hb, _⟩ :=
    print_duration_normal_path (ε := Unit) (some "f took")
      (fun n : Nat => n + 1) 3 0 2500000
  obtain ⟨_, _, hc⟩ :=
    print_duration_normal_path (ε := Unit) (none : Option String)
      (fun n : Nat => n + 1) 3 0 2500000
  refine ⟨?_, ?_⟩
  · rw [ha, hb "f took" (by decide)]
    rfl
  · rw [hc]
    rfl

end Pelper
